import Mathlib

/-!
Verification development for the local-database engine of the alpm
repository (file src/db/local.rs): the lazy-loading package cache, the
directory-scan population routine, and the database-version status check.

The Rust source is embedded shallowly: filesystem state is an explicit
finite map from paths to nodes, the in-place mutation of the package
cache becomes explicit state passing, and machine integers are natural
numbers reduced modulo 2 ^ 64 where u64 overflow matters.
-/

/-- Operating-system file name, as produced by a directory listing.  Models
Rust's OsString: a name is either valid UTF-8 (carrying the decoded string)
or not (the raw non-UTF-8 bytes are abstracted by an identifier). -/
inductive OsString where
  | utf8 (s : String)
  | nonUtf8 (id : Nat)
  deriving DecidableEq, Repr

/-- A filesystem path, as a list of components.  Models Rust's PathBuf;
Path.join appends one component. -/
abbrev PathBuf := List OsString

/-- Source constant LOCAL_DB_VERSION_FILE in src/db/local.rs. -/
def LOCAL_DB_VERSION_FILE : String := "ALPM_DB_VERSION"

/-- Source constant LOCAL_DB_CURRENT_VERSION in src/db/local.rs. -/
def LOCAL_DB_CURRENT_VERSION : Nat := 9

/-- Modelled from the spec: the constant LOCAL_DB_NAME lives in src/db/mod.rs,
which is not part of the sources; the spec fixes the local database root as
<database_path>/local/. -/
def LOCAL_DB_NAME : String := "local"

/-- An I/O error, identified by its kind the way the source matches on it:
the source only distinguishes io::ErrorKind::NotFound from every other kind,
so other kinds are abstracted by a numeric code. -/
inductive IOError where
  | notFound
  | other (code : Nat)
  deriving DecidableEq, Repr

/-- Modelled from the spec: DbStatus is declared in src/db/mod.rs, which is
not part of the sources; the spec fixes the classification as one of
Missing, Invalid, Valid. -/
inductive DbStatus where
  | missing
  | invalid
  | valid
  deriving DecidableEq, Repr

/-- Modelled from the spec: the error taxonomy lives in src/error.rs, which
is not part of the sources.  The spec names the recoverable kinds used by
this core: an I/O failure wrapping an underlying filesystem error, and
invalid-local-package carrying a name (lookup miss or an unparseable
on-disk entry name). -/
inductive Error where
  | invalidLocalPackage (name : String)
  | ioFailure (e : IOError)
  deriving DecidableEq, Repr

/-! ## The atoi integer parse

src/db/local.rs parses the version marker with atoi::atoi::<u64>: the
parse reads leading ASCII-decimal digits, stops at the first non-digit
byte, and fails only when the very first byte is not a digit.  Arithmetic
is u64, modelled as naturals modulo 2 ^ 64. -/

/-- The u64 modulus. -/
def U64MOD : Nat := 2 ^ 64

/-- Whether a byte is an ASCII decimal digit. -/
def isAsciiDigit (b : Nat) : Bool := 48 ≤ b && b ≤ 57

/-- Accumulating loop of the atoi parse: consume digits, stop at the first
non-digit byte. -/
def atoiLoop (acc : Nat) : List Nat → Nat
  | [] => acc
  | b :: rest => if isAsciiDigit b then atoiLoop ((acc * 10 + (b - 48)) % U64MOD) rest else acc

/-- atoi::atoi::<u64> on the raw bytes of the version file: none when the
first byte is not an ASCII digit, otherwise the value of the leading run
of digits. -/
def atoi : List Nat → Option Nat
  | [] => none
  | b :: rest => if isAsciiDigit b then some (atoiLoop ((b - 48) % U64MOD) rest) else none

/-! ## Filesystem model

A filesystem is a finite map from paths to nodes.  This is the concrete
state that fs::metadata, fs::read, fs::read_dir and fs::File::create act
on; it is used to evaluate status() on concrete directory contents. -/

/-- A filesystem node: a regular file with its byte content, or a directory. -/
inductive FsNode where
  | file (content : List Nat)
  | dir
  deriving DecidableEq, Repr

/-- A filesystem: a finite map from paths to nodes (association list,
unique keys). -/
abbrev Fs := List (PathBuf × FsNode)

/-- Look a path up in the filesystem. -/
def fsLookup (fs : Fs) (p : PathBuf) : Option FsNode :=
  (fs.find? (fun e => e.1 = p)).map (·.2)

/-- Replace the node stored at a path (first occurrence). -/
def fsSet : Fs → PathBuf → FsNode → Fs
  | [], _, _ => []
  | (q, n) :: rest, p, node => if q = p then (q, node) :: rest else (q, n) :: fsSet rest p node

/-- The immediate children of a directory path. -/
def fsChildren (fs : Fs) (p : PathBuf) : Fs :=
  fs.filter (fun e => e.1.length = p.length + 1 && e.1.take p.length = p)

/-- fs::metadata: the queried node, or NotFound. -/
def fsMetadata (fs : Fs) (p : PathBuf) : Except IOError FsNode :=
  match fsLookup fs p with
  | some n => .ok n
  | none => .error .notFound

/-- Whether a node is a directory, as md.is_dir() reports it. -/
def FsNode.isDirNode : FsNode → Bool
  | .file _ => false
  | .dir => true

/-- fs::read: the file's bytes; NotFound when absent, another I/O error
(EISDIR, code 21) when the path is a directory. -/
def fsRead (fs : Fs) (p : PathBuf) : Except IOError (List Nat) :=
  match fsLookup fs p with
  | some (.file c) => .ok c
  | some .dir => .error (.other 21)
  | none => .error .notFound

/-- fs::read_dir followed by d.next(): whether the directory has a first
entry.  Fails with NotFound when the path is absent and ENOTDIR (code 20)
when it is a file. -/
def fsReadDirFirst (fs : Fs) (p : PathBuf) : Except IOError (Option Unit) :=
  match fsLookup fs p with
  | some .dir => .ok (if (fsChildren fs p).isEmpty then none else some ())
  | some (.file _) => .error (.other 20)
  | none => .error .notFound

/-- fs::File::create followed by writing the given bytes: truncates an
existing file, creates a new file under an existing parent directory,
fails with EISDIR (code 21) on an existing directory and NotFound when the
parent is missing or not a directory. -/
def fileCreate (fs : Fs) (p : PathBuf) (content : List Nat) : Except IOError Fs :=
  match fsLookup fs p with
  | some .dir => .error (.other 21)
  | some (.file _) => .ok (fsSet fs p (.file content))
  | none =>
    match fsLookup fs p.dropLast with
    | some .dir => .ok (fs ++ [(p, .file content)])
    | _ => .error .notFound

/-- The bytes of the decimal representation of a natural number. -/
def natDecimalBytes (n : Nat) : List Nat := (Nat.toDigits 10 n).map Char.toNat

/-- What create_version_file writes: the supported version constant
followed by a single newline. -/
def versionFileContent : List Nat := natDecimalBytes LOCAL_DB_CURRENT_VERSION ++ [10]

/-! ## Engine data model

The structures of src/db/local.rs.  Collaborator types declared outside
the sources (Handle, SignatureLevel, DbUsage, PackageKey, LocalPackage)
are modelled from the spec's boundary contracts. -/

/-- Modelled from the spec: SignatureLevel lives outside the sources; the
engine only stores the configured verification-level requirement. -/
structure SignatureLevel where
  level : Nat
  deriving DecidableEq, Repr

/-- Modelled from the spec: DbUsage lives outside the sources; the engine
only stores the configured usage flags. -/
structure DbUsage where
  flags : Nat
  deriving DecidableEq, Repr

/-- DbUsage::default(). -/
def DbUsage.default : DbUsage := ⟨0⟩

/-- Modelled from the spec: the shared configuration handle (Handle, owned
elsewhere) carries the root path, the database path and the default
verification level. -/
structure Handle where
  root_path : PathBuf
  database_path : PathBuf
  sig_level : SignatureLevel
  deriving DecidableEq, Repr

/-- Modelled from the spec: PackageKey lives in src/package.rs, outside the
sources.  The spec fixes it as the pair (name: text, version: text), with
equality on both fields; ordering for latest queries compares the version
field only. -/
structure PackageKey where
  name : String
  version : String
  deriving DecidableEq, Repr

/-- Modelled from the spec: LocalPackage lives in src/db/local/package.rs,
outside the sources.  The spec's boundary contract constructs a record
from (location, name, version, configuration); each construction allocates
a fresh reference-counted record, whose allocation identity is made
observable here as parseId (two handles are the same shared record exactly
when their parseIds agree). -/
structure LocalPackage where
  path : PathBuf
  name : String
  version : String
  parseId : Nat
  deriving DecidableEq, Repr

/-- The lazy-loading package slot MaybePackage of src/db/local.rs: either
not yet loaded (holding the on-disk location and the name/version taken
from it) or loaded (holding the shared record). -/
inductive MaybePackage where
  | unloaded (path : PathBuf) (name : String) (version : String)
  | loaded (pkg : LocalPackage)
  deriving DecidableEq, Repr

/-- MaybePackage::new: create an unloaded slot. -/
def MaybePackage.new (path : PathBuf) (name version : String) : MaybePackage :=
  .unloaded path name version

/-- Outcome of an engine operation: a value, a recoverable error, or a
process abort (Rust panic / expect failure). -/
inductive Outcome (α : Type) where
  | ok (a : α)
  | err (e : Error)
  | fatal (msg : String)
  deriving DecidableEq, Repr

/-- Modelled from the spec: the build environment abstracts which package
records the external constructor fails to build, and with which error
(the boundary contract build(location, name, version, configuration) may
return an error). -/
structure BuildEnv where
  buildErr : List ((String × String) × Error)
  deriving DecidableEq, Repr

/-- The error, if any, that the external constructor returns for a given
(name, version). -/
def buildResult (env : BuildEnv) (name version : String) : Option Error :=
  (env.buildErr.find? (fun p => p.1 = (name, version))).map (·.2)

/-- Modelled from the spec: LocalPackage::from_local lives in
src/db/local/package.rs, outside the sources.  Per the spec it resolves
the weak configuration handle (process abort when the handle is dead — a
contract violation, not a normal error), then builds the record from
(location, name, version, configuration) or returns the build error.
fresh is the allocation identity given to a newly built record. -/
def from_local (env : BuildEnv) (path : PathBuf) (name version : String)
    (handle : Option Handle) (fresh : Nat) : Outcome LocalPackage :=
  match handle with
  | none => .fatal "handle dropped"
  | some _ =>
    match buildResult env name version with
    | some e => .err e
    | none => .ok ⟨path, name, version, fresh⟩

/-- MaybePackage::load of src/db/local.rs: on an unloaded slot, construct
the record via LocalPackage::from_local, replace the slot with the loaded
state holding the shared record, and return it; on a loaded slot, return
the existing shared record unchanged.  The mutated slot and the allocation
counter are threaded explicitly. -/
def MaybePackage.load (env : BuildEnv) (mp : MaybePackage) (handle : Option Handle)
    (fresh : Nat) : Outcome (LocalPackage × MaybePackage × Nat) :=
  match mp with
  | .unloaded path name version =>
    match from_local env path name version handle fresh with
    | .ok pkg => .ok (pkg, .loaded pkg, fresh + 1)
    | .err e => .err e
    | .fatal m => .fatal m
  | .loaded pkg => .ok (pkg, .loaded pkg, fresh)

/-- The package cache: a finite map from PackageKey to a package slot
(HashMap modelled as an association list with unique keys; HashMap
iteration order is an arbitrary list order here). -/
abbrev PackageCache := List (PackageKey × MaybePackage)

/-- HashMap::get on the cache. -/
def cacheGet (m : PackageCache) (k : PackageKey) : Option MaybePackage :=
  (m.find? (fun kv => kv.1 = k)).map (·.2)

/-- HashMap::insert of a fresh key (the duplicate case is handled at the
call site): the new binding is appended. -/
def cacheInsert (m : PackageCache) (k : PackageKey) (v : MaybePackage) : PackageCache :=
  m ++ [(k, v)]

/-- In-place update of the slot stored under a key (the RefCell mutation
performed by load through borrow_mut). -/
def cacheSet : PackageCache → PackageKey → MaybePackage → PackageCache
  | [], _, _ => []
  | (k2, v2) :: rest, k, v => if k2 = k then (k2, v) :: rest else (k2, v2) :: cacheSet rest k v

/-- LocalDatabaseInner of src/db/local.rs: the local database engine. -/
structure LocalDatabaseInner where
  handle : Option Handle
  sig_level : SignatureLevel
  usage : DbUsage
  path : PathBuf
  package_cache : PackageCache
  package_count : Nat
  deriving DecidableEq, Repr

/-- LocalDatabaseInner::new: path is database_path joined with the local
database name; the cache starts empty and the cached count at zero.  The
stored handle is the weak reference (live here; a dead one is none). -/
def LocalDatabaseInner.new (handle : Handle) (sig_level : SignatureLevel) : LocalDatabaseInner :=
  { handle := some handle
    sig_level := sig_level
    usage := DbUsage.default
    path := handle.database_path ++ [.utf8 LOCAL_DB_NAME]
    package_cache := []
    package_count := 0 }

/-- LocalDatabaseInner::create_version_file: the source calls
fs::File::create(&self.path) — the path used is the database root itself,
not the version-marker path — and writes the version number followed by a
newline. -/
def LocalDatabaseInner.create_version_file (db : LocalDatabaseInner) (fs : Fs) :
    Except IOError Fs :=
  fileCreate fs db.path versionFileContent

/-- LocalDatabaseInner::status of src/db/local.rs, evaluated against a
concrete filesystem.  The returned filesystem reflects the attempt to
create the version file in the empty-directory branch. -/
def LocalDatabaseInner.status (db : LocalDatabaseInner) (fs : Fs) :
    Except Error (DbStatus × Fs) :=
  match fsMetadata fs db.path with
  | .error .notFound => .ok (.missing, fs)
  | .error e => .error (.ioFailure e)
  | .ok md =>
    if md.isDirNode = false then .ok (.invalid, fs)
    else
      match fsRead fs (db.path ++ [.utf8 LOCAL_DB_VERSION_FILE]) with
      | .ok version_raw =>
        .ok ((match atoi version_raw with
              | some version =>
                if version = LOCAL_DB_CURRENT_VERSION then DbStatus.valid else DbStatus.invalid
              | none => DbStatus.invalid), fs)
      | .error .notFound =>
        match fsReadDirFirst fs db.path with
        | .ok (some _) => .ok (.invalid, fs)
        | .ok none =>
          match db.create_version_file fs with
          | .ok fs2 => .ok (.valid, fs2)
          | .error _ => .ok (.invalid, fs)
        | .error _ => .ok (.invalid, fs)
      | .error _ => .ok (.invalid, fs)

/-! ## Status over an abstract world

To state the error-handling policy of status() for arbitrary I/O failures
(which the pure filesystem model cannot produce), the same control flow is
stated once over an abstract world recording the outcome of each
filesystem call status() makes. -/

instance {ε α : Type} [DecidableEq ε] [DecidableEq α] : DecidableEq (Except ε α) := fun x y =>
  match x, y with
  | .ok a, .ok b => if h : a = b then .isTrue (by rw [h]) else .isFalse (by simp [h])
  | .error e, .error f => if h : e = f then .isTrue (by rw [h]) else .isFalse (by simp [h])
  | .ok _, .error _ => .isFalse (by simp)
  | .error _, .ok _ => .isFalse (by simp)

/-- The outcomes of the filesystem calls made by one status() evaluation:
fs::metadata on the root, fs::read of the version-marker path,
fs::read_dir plus d.next() on the root, and create_version_file. -/
structure StatusWorld where
  rootMetadata : Except IOError FsNode
  readVersionFile : Except IOError (List Nat)
  readDirFirstEntry : Except IOError (Option Unit)
  createVersionFile : Except IOError Unit
  deriving DecidableEq, Repr

/-- LocalDatabaseInner::status of src/db/local.rs over an abstract world:
identical branch structure to the concrete version, with each filesystem
call answered by the world. -/
def statusWith (w : StatusWorld) : Except Error DbStatus :=
  match w.rootMetadata with
  | .error .notFound => .ok .missing
  | .error e => .error (.ioFailure e)
  | .ok md =>
    if md.isDirNode = false then .ok .invalid
    else
      match w.readVersionFile with
      | .ok version_raw =>
        .ok (match atoi version_raw with
             | some version =>
               if version = LOCAL_DB_CURRENT_VERSION then DbStatus.valid else DbStatus.invalid
             | none => DbStatus.invalid)
      | .error .notFound =>
        match w.readDirFirstEntry with
        | .ok (some _) => .ok .invalid
        | .ok none =>
          match w.createVersionFile with
          | .ok _ => .ok .valid
          | .error _ => .ok .invalid
        | .error _ => .ok .invalid
      | .error _ => .ok .invalid

/-! ## Lookup and enumeration -/

/-- Lexicographic strict comparison of character lists, by character
value.  This is the Ord instance Rust uses when package_latest compares
version strings with max_by_key (byte-wise comparison; UTF-8 byte order
agrees with character order). -/
def charsLtB : List Char → List Char → Bool
  | [], [] => false
  | [], _ :: _ => true
  | _ :: _, [] => false
  | a :: as, b :: bs => if a < b then true else if b < a then false else charsLtB as bs

/-- Strict version-string comparison of two package keys, the key function
of max_by_key in package_latest. -/
def versionLtB (a b : String) : Bool := charsLtB a.data b.data

/-- The fold of Iterator::max_by_key over the remaining entries: keep the
current maximum unless the next entry's version is at least as large (ties
go to the later entry, as max_by_key returns the last maximum). -/
def maxFold (cur : PackageKey × MaybePackage) :
    List (PackageKey × MaybePackage) → PackageKey × MaybePackage
  | [] => cur
  | nxt :: rest => maxFold (if versionLtB nxt.1.version cur.1.version then cur else nxt) rest

/-- Iterator::max_by_key on the version field: none on an empty iterator,
otherwise the (last) entry with the greatest version. -/
def maxByVersion : List (PackageKey × MaybePackage) → Option (PackageKey × MaybePackage)
  | [] => none
  | x :: xs => some (maxFold x xs)

/-- LocalDatabaseInner::package of src/db/local.rs: exact key lookup,
failing with InvalidLocalPackage(name) when the key is absent, then load
through the slot's RefCell.  The engine with the mutated slot and the
allocation counter are threaded explicitly. -/
def LocalDatabaseInner.package (env : BuildEnv) (db : LocalDatabaseInner) (fresh : Nat)
    (name version : String) : Outcome (LocalPackage × LocalDatabaseInner × Nat) :=
  match cacheGet db.package_cache ⟨name, version⟩ with
  | none => .err (.invalidLocalPackage name)
  | some mp =>
    match mp.load env db.handle fresh with
    | .ok (pkg, mp2, fresh2) =>
      .ok (pkg, { db with package_cache := cacheSet db.package_cache ⟨name, version⟩ mp2 }, fresh2)
    | .err e => .err e
    | .fatal m => .fatal m

/-- LocalDatabaseInner::package_latest of src/db/local.rs: filter the
cache to the entries whose key has the given name, take max_by_key on the
version, fail with InvalidLocalPackage(name) when no entry matches, and
load the winner through its RefCell. -/
def LocalDatabaseInner.package_latest (env : BuildEnv) (db : LocalDatabaseInner) (fresh : Nat)
    (name : String) : Outcome (LocalPackage × LocalDatabaseInner × Nat) :=
  match maxByVersion (db.package_cache.filter (fun kv => kv.1.name = name)) with
  | none => .err (.invalidLocalPackage name)
  | some (k, mp) =>
    match mp.load env db.handle fresh with
    | .ok (pkg, mp2, fresh2) =>
      .ok (pkg, { db with package_cache := cacheSet db.package_cache k mp2 }, fresh2)
    | .err e => .err e
    | .fatal m => .fatal m

/-- Result of one packages() (for_each) run: the slot map after the run,
the allocation counter, the trace of records passed to the visitor in
order, and how the run ended. -/
inductive ForEachResult (E : Type) where
  | ok (slots : PackageCache) (fresh : Nat) (visited : List LocalPackage)
  | err (slots : PackageCache) (fresh : Nat) (visited : List LocalPackage) (e : E)
  | fatal (msg : String)

/-- The loop body of LocalDatabaseInner::packages: for each slot in
iteration order, load it (propagating a load error through the From
conversion fromE without invoking the visitor), then invoke the visitor,
stopping at its first failure.  Slots after the stopping point are left
untouched and unvisited. -/
def packagesGo {E : Type} (fromE : Error → E) (env : BuildEnv) (handle : Option Handle)
    (f : LocalPackage → Except E Unit) : PackageCache → Nat → ForEachResult E
  | [], fresh => .ok [] fresh []
  | (k, mp) :: rest, fresh =>
    match mp.load env handle fresh with
    | .fatal m => .fatal m
    | .err e => .err ((k, mp) :: rest) fresh [] (fromE e)
    | .ok (pkg, mp2, fresh2) =>
      match f pkg with
      | .error e2 => .err ((k, mp2) :: rest) fresh2 [pkg] e2
      | .ok _ =>
        match packagesGo fromE env handle f rest fresh2 with
        | .ok slots fresh3 visited => .ok ((k, mp2) :: slots) fresh3 (pkg :: visited)
        | .err slots fresh3 visited e3 => .err ((k, mp2) :: slots) fresh3 (pkg :: visited) e3
        | .fatal m => .fatal m

/-- LocalDatabaseInner::packages of src/db/local.rs (for_each): iterate
the full slot map, loading each slot and invoking the visitor on the
resulting record. -/
def LocalDatabaseInner.packages {E : Type} (fromE : Error → E) (env : BuildEnv)
    (db : LocalDatabaseInner) (f : LocalPackage → Except E Unit) (fresh : Nat) :
    ForEachResult E :=
  packagesGo fromE env db.handle f db.package_cache fresh

/-- LocalDatabase::count of src/db/local.rs: the facade returns the
current length of the engine's package cache. -/
def LocalDatabase.count (db : LocalDatabaseInner) : Nat :=
  db.package_cache.length

/-! ## Population -/

/-- One entry of the directory listing populate_package_cache walks: its
file name (an OS string) and whether its metadata says it is a
directory. -/
structure DirEntry where
  file_name : OsString
  is_dir : Bool
  deriving DecidableEq, Repr

/-- Result of populate_package_cache on a &mut engine: the engine state is
retained on the recoverable error path (Rust's early return leaves the
partially filled map in self), and lost on a process abort. -/
inductive PopResult where
  | ok (db : LocalDatabaseInner)
  | err (db : LocalDatabaseInner) (e : Error)
  | fatal (msg : String)
  deriving DecidableEq, Repr

/-- The engine state a PopResult leaves behind, when the process survives. -/
def PopResult.dbOf : PopResult → Option LocalDatabaseInner
  | .ok db => some db
  | .err db _ => some db
  | .fatal _ => none

/-- The error a PopResult carries, if any. -/
def PopResult.errOf : PopResult → Option Error
  | .ok _ => none
  | .err _ e => some e
  | .fatal _ => none

/-- LocalDatabaseInner::populate_package_cache of src/db/local.rs, over a
directory listing.  Non-directory entries are skipped (the version-marker
file silently, anything else with a logged warning).  A directory entry
whose name is not UTF-8 aborts the process (the expect on
OsString::into_string).  A directory name the external splitter cannot
decompose fails the whole run with InvalidLocalPackage carrying the raw
name, keeping the entries inserted so far.  A key already present at
insertion time aborts the process.  The splitter is the external
collaborator split_package_dirname, passed explicitly. -/
def populate_package_cache (split : String → Option (String × String)) :
    LocalDatabaseInner → List DirEntry → PopResult
  | db, [] => .ok db
  | db, entry :: rest =>
    if entry.is_dir = false then
      populate_package_cache split db rest
    else
      match entry.file_name with
      | .nonUtf8 _ => .fatal "non-utf8 package names not yet supported"
      | .utf8 file_name =>
        match split file_name with
        | none => .err db (.invalidLocalPackage file_name)
        | some (name, version) =>
          if (cacheGet db.package_cache ⟨name, version⟩).isSome then
            .fatal "Found package in localdb with duplicate name/version"
          else
            populate_package_cache split
              { db with package_cache :=
                  (cacheInsert db.package_cache ⟨name, version⟩
                    (MaybePackage.new (db.path ++ [.utf8 file_name]) name version)) }
              rest

/-- splitDash cs splits a character list at every dash. -/
def splitDash : List Char → List (List Char)
  | [] => [[]]
  | c :: rest =>
    match splitDash rest with
    | [] => [[]]
    | g :: gs => if c = '-' then [] :: g :: gs else (c :: g) :: gs

/-- joinDash gs joins character lists with dashes (inverse of splitDash). -/
def joinDash : List (List Char) → List Char
  | [] => []
  | [g] => g
  | g :: g2 :: gs => g ++ '-' :: joinDash (g2 :: gs)

/-- Modelled from the spec: the directory-name splitter collaborator
split_package_dirname lives in src/db/mod.rs, outside the sources.  Per
the spec a package directory name is the canonical compaction of name,
version and release; the splitter recovers (name, version-release) by
splitting at the second-to-last dash, and fails on a name with fewer than
two dashes. -/
def split_package_dirname (s : String) : Option (String × String) :=
  let parts := splitDash s.data
  if parts.length ≥ 3 then
    some (⟨joinDash (parts.take (parts.length - 2))⟩, ⟨joinDash (parts.drop (parts.length - 2))⟩)
  else none

/-! ## Helper functions and lemmas -/

/-- The record a slot yields when loaded with allocation counter fresh: a
loaded slot yields its stored shared record, an unloaded slot the freshly
built one. -/
def slotRecord (mp : MaybePackage) (fresh : Nat) : LocalPackage :=
  match mp with
  | .loaded p => p
  | .unloaded path name version => ⟨path, name, version, fresh⟩

/-- The allocation counter after loading one slot: loading an unloaded
slot performs one parse. -/
def slotFreshAfter (mp : MaybePackage) (fresh : Nat) : Nat :=
  match mp with
  | .loaded _ => fresh
  | .unloaded _ _ _ => fresh + 1

theorem load_ok_shape {env : BuildEnv} {mp : MaybePackage} {handle : Option Handle}
    {fresh : Nat} {pkg : LocalPackage} {mp2 : MaybePackage} {fresh2 : Nat}
    (h : MaybePackage.load env mp handle fresh = .ok (pkg, mp2, fresh2)) :
    pkg = slotRecord mp fresh ∧ mp2 = .loaded pkg ∧ fresh2 = slotFreshAfter mp fresh := by
  cases mp with
  | unloaded path name version =>
    cases handle with
    | none => simp [MaybePackage.load, from_local] at h
    | some hd =>
      cases hb : buildResult env name version with
      | none =>
        simp [MaybePackage.load, from_local, hb] at h
        obtain ⟨h1, h2, h3⟩ := h
        subst h1 h2 h3
        simp [slotRecord, slotFreshAfter]
      | some e => simp [MaybePackage.load, from_local, hb] at h
  | loaded p =>
    simp [MaybePackage.load] at h
    obtain ⟨h1, h2, h3⟩ := h
    subst h1 h2 h3
    simp [slotRecord, slotFreshAfter]

theorem load_success {env : BuildEnv} (henv : env.buildErr = []) (mp : MaybePackage)
    (hd : Handle) (fresh : Nat) :
    MaybePackage.load env mp (some hd) fresh =
      .ok (slotRecord mp fresh, .loaded (slotRecord mp fresh), slotFreshAfter mp fresh) := by
  cases mp with
  | unloaded path name version =>
    simp [MaybePackage.load, from_local, buildResult, henv, slotRecord, slotFreshAfter]
  | loaded p => simp [MaybePackage.load, slotRecord, slotFreshAfter]

theorem cacheGet_cons (k2 : PackageKey) (v2 : MaybePackage) (rest : PackageCache)
    (k : PackageKey) :
    cacheGet ((k2, v2) :: rest) k = if k2 = k then some v2 else cacheGet rest k := by
  by_cases hk : k2 = k <;> simp [cacheGet, List.find?, hk]

theorem cacheGet_set_eq {m : PackageCache} {k : PackageKey} {v0 : MaybePackage}
    (h : cacheGet m k = some v0) (v : MaybePackage) :
    cacheGet (cacheSet m k v) k = some v := by
  induction m with
  | nil => simp [cacheGet] at h
  | cons kv rest ih =>
    obtain ⟨k2, v2⟩ := kv
    by_cases hk : k2 = k
    · subst hk
      simp [cacheSet, cacheGet_cons]
    · rw [cacheGet_cons, if_neg hk] at h
      simp [cacheSet, hk, cacheGet_cons, ih h]

theorem cacheSet_self {m : PackageCache} {k : PackageKey} {v : MaybePackage}
    (h : cacheGet m k = some v) : cacheSet m k v = m := by
  induction m with
  | nil => simp [cacheGet] at h
  | cons kv rest ih =>
    obtain ⟨k2, v2⟩ := kv
    by_cases hk : k2 = k
    · subst hk
      rw [cacheGet_cons, if_pos rfl] at h
      simp only [Option.some.injEq] at h
      simp [cacheSet, h]
    · rw [cacheGet_cons, if_neg hk] at h
      simp [cacheSet, hk, ih h]

/-! ## Shared concrete instances for witnesses -/

/-- A build environment in which every construction succeeds. -/
def envNoFail : BuildEnv := ⟨[]⟩

/-- A concrete live configuration handle. -/
def handleA : Handle := ⟨[.utf8 "tmp"], [.utf8 "var"], ⟨0⟩⟩

/-- A concrete engine holding one unloaded slot for (foo, 1.0-1). -/
def dbOneSlot : LocalDatabaseInner :=
  { handle := some handleA
    sig_level := ⟨0⟩
    usage := ⟨0⟩
    path := [.utf8 "var", .utf8 "local"]
    package_cache := [(⟨"foo", "1.0-1"⟩, .unloaded [.utf8 "var", .utf8 "local", .utf8 "foo-1.0-1"] "foo" "1.0-1")]
    package_count := 1 }

/-- The record the first load of dbOneSlot's slot builds, with allocation
identity 0. -/
def pkgFoo : LocalPackage := ⟨[.utf8 "var", .utf8 "local", .utf8 "foo-1.0-1"], "foo", "1.0-1", 0⟩

/-- dbOneSlot after its slot has been parsed. -/
def dbOneSlotLoaded : LocalDatabaseInner :=
  { dbOneSlot with package_cache := [(⟨"foo", "1.0-1"⟩, .loaded pkgFoo)] }

/-- C6: a package slot transitions only one way, from unparsed to parsed:
a successful load leaves the slot holding the returned shared record; a
loaded slot answers every later load with that identical shared record,
unchanged state and no new parse (the allocation counter does not move);
the first load of an unloaded slot performs exactly one parse; and at the
engine level a lookup repeated after a successful lookup of the same
(name, version) returns the identical shared record with unchanged engine
state and allocation counter. -/
theorem load_memoization :
    (∀ (env : BuildEnv) (pkg : LocalPackage) (handle : Option Handle) (fresh : Nat),
       MaybePackage.load env (.loaded pkg) handle fresh = .ok (pkg, .loaded pkg, fresh))
    ∧ (∀ (env : BuildEnv) (mp : MaybePackage) (handle : Option Handle) (fresh : Nat)
         (pkg : LocalPackage) (mp2 : MaybePackage) (fresh2 : Nat),
       MaybePackage.load env mp handle fresh = .ok (pkg, mp2, fresh2) →
         mp2 = MaybePackage.loaded pkg
         ∧ ∀ (env2 : BuildEnv) (handle2 : Option Handle),
             MaybePackage.load env2 mp2 handle2 fresh2 = .ok (pkg, mp2, fresh2))
    ∧ (∀ (env : BuildEnv) (path : PathBuf) (name version : String) (handle : Option Handle)
         (fresh : Nat) (pkg : LocalPackage) (mp2 : MaybePackage) (fresh2 : Nat),
       MaybePackage.load env (.unloaded path name version) handle fresh = .ok (pkg, mp2, fresh2) →
         fresh2 = fresh + 1 ∧ pkg.parseId = fresh)
    ∧ (∀ (env : BuildEnv) (db : LocalDatabaseInner) (fresh : Nat) (name version : String)
         (pkg : LocalPackage) (db2 : LocalDatabaseInner) (fresh2 : Nat),
       LocalDatabaseInner.package env db fresh name version = .ok (pkg, db2, fresh2) →
         LocalDatabaseInner.package env db2 fresh2 name version = .ok (pkg, db2, fresh2)) := by
  refine ⟨?_, ?_, ?_, ?_⟩
  · intro env pkg handle fresh
    simp [MaybePackage.load]
  · intro env mp handle fresh pkg mp2 fresh2 h
    obtain ⟨h1, h2, h3⟩ := load_ok_shape h
    refine ⟨h2, ?_⟩
    intro env2 handle2
    rw [h2]
    simp [MaybePackage.load]
  · intro env path name version handle fresh pkg mp2 fresh2 h
    obtain ⟨h1, h2, h3⟩ := load_ok_shape h
    subst h1 h3
    simp [slotRecord, slotFreshAfter]
  · intro env db fresh name version pkg db2 fresh2 h
    unfold LocalDatabaseInner.package at h
    split at h
    · simp at h
    · rename_i mp hget
      split at h
      · rename_i pkg3 mp3 fresh3 hload
        simp only [Outcome.ok.injEq, Prod.mk.injEq] at h
        obtain ⟨he1, he2, he3⟩ := h
        obtain ⟨hs1, hs2, hs3⟩ := load_ok_shape hload
        subst he1 he3
        subst he2
        unfold LocalDatabaseInner.package
        rw [show cacheGet (cacheSet db.package_cache ⟨name, version⟩ mp3) ⟨name, version⟩
              = some mp3 from cacheGet_set_eq hget mp3]
        have hload2 : MaybePackage.load env mp3 db.handle fresh3 = .ok (pkg3, mp3, fresh3) := by
          rw [hs2]
          simp [MaybePackage.load]
        simp only [hload2]
        have hset2 : cacheSet (cacheSet db.package_cache ⟨name, version⟩ mp3) ⟨name, version⟩ mp3
            = cacheSet db.package_cache ⟨name, version⟩ mp3 :=
          cacheSet_self (cacheGet_set_eq hget mp3)
        simp [hset2]
      · simp at h
      · simp at h

/-- Witness for C6 at a concrete engine: looking (foo, 1.0-1) up a second
time after the first successful lookup returns the identical shared
record with unchanged state. -/
theorem load_memoization_witness :
    LocalDatabaseInner.package envNoFail dbOneSlotLoaded 1 "foo" "1.0-1" =
      .ok (pkgFoo, dbOneSlotLoaded, 1) :=
  load_memoization.2.2.2 envNoFail dbOneSlot 0 "foo" "1.0-1" pkgFoo dbOneSlotLoaded 1 (by decide)

/-! ## Status claims -/

/-- A filesystem holding an existing, empty local database directory
var/local and no version-marker file. -/
def fsEmptyLocal : Fs := [([.utf8 "var"], .dir), ([.utf8 "var", .utf8 "local"], .dir)]

/-- The engine over handleA, whose root is var/local. -/
def dbFresh : LocalDatabaseInner := LocalDatabaseInner.new handleA ⟨0⟩

/-- C1: evaluation of status() on an empty root directory with no
version-marker file.  The source's create_version_file calls
fs::File::create on the database root path itself rather than on
root/ALPM_DB_VERSION; since that path is an existing directory the create
fails, so status() returns Invalid (not Valid), the filesystem is left
unchanged, no marker file exists afterwards, and a second call returns
Invalid again. -/
theorem status_empty_root_create_misdirected :
    dbFresh.status fsEmptyLocal = .ok (.invalid, fsEmptyLocal)
    ∧ dbFresh.create_version_file fsEmptyLocal = .error (.other 21)
    ∧ fsRead fsEmptyLocal (dbFresh.path ++ [.utf8 LOCAL_DB_VERSION_FILE]) = .error .notFound := by
  refine ⟨by decide, by decide, by decide⟩

/-- C4: when the root metadata reports a directory and the version-marker
file is read successfully, status() classifies Valid exactly when the
atoi parse of the content yields the supported version constant;
a parse to any other integer, or a failed parse, classifies Invalid. -/
theorem status_marker_version_check :
    ∀ (w : StatusWorld) (content : List Nat),
      w.rootMetadata = .ok .dir →
      w.readVersionFile = .ok content →
      (statusWith w = .ok .valid ↔ atoi content = some LOCAL_DB_CURRENT_VERSION)
      ∧ (∀ n, atoi content = some n → n ≠ LOCAL_DB_CURRENT_VERSION → statusWith w = .ok .invalid)
      ∧ (atoi content = none → statusWith w = .ok .invalid) := by
  intro w content h1 h2
  unfold statusWith
  rw [h1, h2]
  simp only [FsNode.isDirNode]
  cases hao : atoi content with
  | none => simp
  | some n =>
    by_cases hn : n = LOCAL_DB_CURRENT_VERSION
    · subst hn
      simp
    · simp [hn]

/-- World of a run in which the marker holds the bytes of "9" and a
newline. -/
def wNine : StatusWorld := ⟨.ok .dir, .ok [57, 10], .ok none, .ok ()⟩

/-- World of a run in which the marker holds a non-numeric byte. -/
def wJunk : StatusWorld := ⟨.ok .dir, .ok [120], .ok none, .ok ()⟩

/-- Witness for C4: content "9\n" classifies Valid; content "x"
classifies Invalid. -/
theorem status_marker_version_check_witness :
    statusWith wNine = .ok .valid ∧ statusWith wJunk = .ok .invalid :=
  ⟨(status_marker_version_check wNine [57, 10] rfl rfl).1.mpr (by decide),
   (status_marker_version_check wJunk [120] rfl rfl).2.2 (by decide)⟩

/-- C5: the error policy of status().  A missing root classifies Missing;
any other I/O failure of the initial root metadata query propagates as a
hard error; a root that is not a directory classifies Invalid; and once
the root is a directory the call always returns a classification — an
I/O failure reading the marker, listing the directory, or creating the
marker is each downgraded to Invalid. -/
theorem status_error_policy :
    ∀ (w : StatusWorld),
      (w.rootMetadata = .error .notFound → statusWith w = .ok .missing)
      ∧ (∀ c, w.rootMetadata = .error (.other c) →
          statusWith w = .error (.ioFailure (.other c)))
      ∧ (∀ content, w.rootMetadata = .ok (.file content) → statusWith w = .ok .invalid)
      ∧ (w.rootMetadata = .ok .dir → ∃ s, statusWith w = .ok s)
      ∧ (∀ c, w.rootMetadata = .ok .dir → w.readVersionFile = .error (.other c) →
          statusWith w = .ok .invalid)
      ∧ (∀ e, w.rootMetadata = .ok .dir → w.readVersionFile = .error .notFound →
          w.readDirFirstEntry = .error e → statusWith w = .ok .invalid)
      ∧ (∀ e, w.rootMetadata = .ok .dir → w.readVersionFile = .error .notFound →
          w.readDirFirstEntry = .ok none → w.createVersionFile = .error e →
          statusWith w = .ok .invalid) := by
  intro w
  refine ⟨?_, ?_, ?_, ?_, ?_, ?_, ?_⟩
  · intro h1
    unfold statusWith
    rw [h1]
  · intro c h1
    unfold statusWith
    rw [h1]
  · intro content h1
    unfold statusWith
    rw [h1]
    simp [FsNode.isDirNode]
  · intro h1
    unfold statusWith
    rw [h1]
    simp only [FsNode.isDirNode]
    cases hv : w.readVersionFile with
    | ok raw =>
      cases atoi raw with
      | none => exact ⟨_, rfl⟩
      | some n => by_cases hn : n = LOCAL_DB_CURRENT_VERSION <;> simp [hn]
    | error e =>
      cases e with
      | notFound =>
        cases hd : w.readDirFirstEntry with
        | ok first =>
          cases first with
          | none =>
            cases hc : w.createVersionFile with
            | ok u => exact ⟨_, rfl⟩
            | error e2 => exact ⟨_, rfl⟩
          | some u => exact ⟨_, rfl⟩
        | error e2 => exact ⟨_, rfl⟩
      | other c => exact ⟨_, rfl⟩
  · intro c h1 h2
    unfold statusWith
    rw [h1, h2]
    simp [FsNode.isDirNode]
  · intro e h1 h2 h3
    unfold statusWith
    rw [h1, h2, h3]
    simp [FsNode.isDirNode]
  · intro e h1 h2 h3 h4
    unfold statusWith
    rw [h1, h2, h3, h4]
    simp [FsNode.isDirNode]

/-- World whose root metadata query reports NotFound. -/
def wAbsent : StatusWorld := ⟨.error .notFound, .ok [], .ok none, .ok ()⟩

/-- World whose root metadata query fails with a non-NotFound error. -/
def wHardErr : StatusWorld := ⟨.error (.other 5), .ok [], .ok none, .ok ()⟩

/-- World whose root is a regular file. -/
def wRootFile : StatusWorld := ⟨.ok (.file []), .ok [], .ok none, .ok ()⟩

/-- World whose marker read fails with a non-NotFound error. -/
def wReadErr : StatusWorld := ⟨.ok .dir, .error (.other 13), .ok none, .ok ()⟩

/-- World whose directory listing fails. -/
def wListErr : StatusWorld := ⟨.ok .dir, .error .notFound, .error (.other 13), .ok ()⟩

/-- World whose marker creation fails. -/
def wCreateErr : StatusWorld := ⟨.ok .dir, .error .notFound, .ok none, .error (.other 13)⟩

/-- Witness for C5 at concrete worlds, one per branch of the policy. -/
theorem status_error_policy_witness :
    statusWith wAbsent = .ok .missing
    ∧ statusWith wHardErr = .error (.ioFailure (.other 5))
    ∧ statusWith wRootFile = .ok .invalid
    ∧ (∃ s, statusWith wNine = .ok s)
    ∧ statusWith wReadErr = .ok .invalid
    ∧ statusWith wListErr = .ok .invalid
    ∧ statusWith wCreateErr = .ok .invalid :=
  ⟨(status_error_policy wAbsent).1 rfl,
   (status_error_policy wHardErr).2.1 5 rfl,
   (status_error_policy wRootFile).2.2.1 [] rfl,
   (status_error_policy wNine).2.2.2.1 rfl,
   (status_error_policy wReadErr).2.2.2.2.1 13 rfl rfl,
   (status_error_policy wListErr).2.2.2.2.2.1 (.other 13) rfl rfl rfl,
   (status_error_policy wCreateErr).2.2.2.2.2.2 (.other 13) rfl rfl rfl rfl⟩

/-! ## Population claims -/

/-- C9: when populate reaches a directory entry whose decomposed
(name, version) key is already present in the slot map, the run aborts
the process with the duplicate-key panic instead of returning a
recoverable error. -/
theorem populate_duplicate_key_aborts :
    ∀ (split : String → Option (String × String)) (db : LocalDatabaseInner)
      (entry : DirEntry) (rest : List DirEntry) (raw name version : String),
      entry.is_dir = true →
      entry.file_name = .utf8 raw →
      split raw = some (name, version) →
      (cacheGet db.package_cache ⟨name, version⟩).isSome = true →
      populate_package_cache split db (entry :: rest) =
        .fatal "Found package in localdb with duplicate name/version" := by
  intro split db entry rest raw name version h1 h2 h3 h4
  obtain ⟨fn, isd⟩ := entry
  simp only at h1 h2
  subst h1 h2
  simp [populate_package_cache, h3, h4]

/-- Witness for C9: an engine already holding (foo, 1.0-1) and a splitter
resolving the next directory name to the same key abort the run. -/
theorem populate_duplicate_key_aborts_witness :
    populate_package_cache (fun _ => some ("foo", "1.0-1")) dbOneSlot
        [⟨.utf8 "foo-1.0-1.extra", true⟩] =
      .fatal "Found package in localdb with duplicate name/version" :=
  populate_duplicate_key_aborts (fun _ => some ("foo", "1.0-1")) dbOneSlot
    ⟨.utf8 "foo-1.0-1.extra", true⟩ [] "foo-1.0-1.extra" "foo" "1.0-1" rfl rfl rfl (by decide)

/-- C10: a directory entry whose file name is not valid UTF-8 aborts the
process with the non-utf8 panic, while a directory entry with a UTF-8
name the splitter cannot decompose produces the recoverable
invalid-local-package error carrying the raw name. -/
theorem populate_non_utf8_aborts :
    ∀ (split : String → Option (String × String)) (db : LocalDatabaseInner)
      (entry : DirEntry) (rest : List DirEntry),
      (∀ id, entry.is_dir = true → entry.file_name = .nonUtf8 id →
        populate_package_cache split db (entry :: rest) =
          .fatal "non-utf8 package names not yet supported")
      ∧ (∀ raw, entry.is_dir = true → entry.file_name = .utf8 raw → split raw = none →
        populate_package_cache split db (entry :: rest) =
          .err db (.invalidLocalPackage raw)) := by
  intro split db entry rest
  constructor
  · intro id h1 h2
    obtain ⟨fn, isd⟩ := entry
    simp only at h1 h2
    subst h1 h2
    simp [populate_package_cache]
  · intro raw h1 h2 h3
    obtain ⟨fn, isd⟩ := entry
    simp only at h1 h2
    subst h1 h2
    simp [populate_package_cache, h3]

/-- Witness for C10: a non-UTF-8 directory entry aborts; an
undecomposable UTF-8 one errors recoverably. -/
theorem populate_non_utf8_aborts_witness :
    populate_package_cache split_package_dirname dbFresh [⟨.nonUtf8 0, true⟩] =
      .fatal "non-utf8 package names not yet supported"
    ∧ populate_package_cache split_package_dirname dbFresh [⟨.utf8 "bad", true⟩] =
      .err dbFresh (.invalidLocalPackage "bad") :=
  ⟨(populate_non_utf8_aborts split_package_dirname dbFresh ⟨.nonUtf8 0, true⟩ []).1 0 rfl rfl,
   (populate_non_utf8_aborts split_package_dirname dbFresh ⟨.utf8 "bad", true⟩ []).2 "bad"
     rfl rfl (by decide)⟩

/-- A listing with a decomposable package directory followed by an
undecomposable one. -/
def entriesMix : List DirEntry := [⟨.utf8 "foo-1.0-1", true⟩, ⟨.utf8 "bad", true⟩]

/-- Counterexample for C3: populating a fresh engine over a listing whose
second directory name cannot be decomposed fails with the
invalid-local-package error carrying the raw name, but the slot map is not
rolled back — the engine retains the entry inserted for the first
directory, so the map is not left as if populate() had never run. -/
theorem populate_not_rolled_back_counterexample :
    (populate_package_cache split_package_dirname dbFresh entriesMix).errOf =
      some (.invalidLocalPackage "bad")
    ∧ (populate_package_cache split_package_dirname dbFresh entriesMix).dbOf.map
        (fun db => db.package_cache.length) = some 1
    ∧ dbFresh.package_cache.length = 0 :=
  ⟨by decide, by decide, by decide⟩

/-- C3 (amended): a decomposition failure fails the whole population with
an invalid-local-package error carrying the raw directory name — a run
never succeeds while some directory entry's UTF-8 name fails to split,
and every recoverable error is an invalid-local-package naming some
undecomposable directory entry of the listing — but the slot map is not
rolled back: the state on error extends the initial map with the entries
inserted before the failure. -/
theorem populate_error_contract_amended :
    ∀ (split : String → Option (String × String)) (db : LocalDatabaseInner)
      (entries : List DirEntry),
      (∀ db2, populate_package_cache split db entries = .ok db2 →
        ∀ d ∈ entries, d.is_dir = true → ∀ raw, d.file_name = .utf8 raw →
          (split raw).isSome = true)
      ∧ (∀ db2 e, populate_package_cache split db entries = .err db2 e →
          (∃ raw, e = .invalidLocalPackage raw
            ∧ ∃ d ∈ entries, d.is_dir = true ∧ d.file_name = .utf8 raw ∧ split raw = none)
          ∧ ∃ tail, db2.package_cache = db.package_cache ++ tail) := by
  intro split db entries
  induction entries generalizing db with
  | nil =>
    constructor
    · intro db2 _ d hd
      simp at hd
    · intro db2 e herr
      simp [populate_package_cache] at herr
  | cons entry rest ih =>
    obtain ⟨fn, isd⟩ := entry
    cases isd with
    | false =>
      have hstep : populate_package_cache split db (⟨fn, false⟩ :: rest) =
          populate_package_cache split db rest := by
        simp [populate_package_cache]
      constructor
      · intro db2 hok d hd hdir raw hraw
        rw [hstep] at hok
        rcases List.mem_cons.mp hd with hhead | htail
        · subst hhead
          simp at hdir
        · exact (ih db).1 db2 hok d htail hdir raw hraw
      · intro db2 e herr
        rw [hstep] at herr
        obtain ⟨⟨raw, he, d, hd, hprop⟩, tail, htail⟩ := (ih db).2 db2 e herr
        exact ⟨⟨raw, he, d, List.mem_cons_of_mem _ hd, hprop⟩, tail, htail⟩
    | true =>
      cases fn with
      | nonUtf8 id =>
        have hstep : populate_package_cache split db (⟨.nonUtf8 id, true⟩ :: rest) =
            .fatal "non-utf8 package names not yet supported" := by
          simp [populate_package_cache]
        constructor
        · intro db2 hok
          rw [hstep] at hok
          simp at hok
        · intro db2 e herr
          rw [hstep] at herr
          simp at herr
      | utf8 raw0 =>
        cases hsplit : split raw0 with
        | none =>
          have hstep : populate_package_cache split db (⟨.utf8 raw0, true⟩ :: rest) =
              .err db (.invalidLocalPackage raw0) := by
            simp [populate_package_cache, hsplit]
          constructor
          · intro db2 hok
            rw [hstep] at hok
            simp at hok
          · intro db2 e herr
            rw [hstep] at herr
            simp only [PopResult.err.injEq] at herr
            obtain ⟨hdb, he⟩ := herr
            subst hdb he
            refine ⟨⟨raw0, rfl, ⟨.utf8 raw0, true⟩, List.mem_cons_self _ _, rfl, rfl, hsplit⟩,
              [], by simp⟩
        | some nv =>
          obtain ⟨name, version⟩ := nv
          cases hdup : (cacheGet db.package_cache ⟨name, version⟩).isSome with
          | true =>
            have hstep : populate_package_cache split db (⟨.utf8 raw0, true⟩ :: rest) =
                .fatal "Found package in localdb with duplicate name/version" := by
              simp [populate_package_cache, hsplit, hdup]
            constructor
            · intro db2 hok
              rw [hstep] at hok
              simp at hok
            · intro db2 e herr
              rw [hstep] at herr
              simp at herr
          | false =>
            have hstep : populate_package_cache split db (⟨.utf8 raw0, true⟩ :: rest) =
                populate_package_cache split
                  { db with package_cache :=
                      (cacheInsert db.package_cache ⟨name, version⟩
                        (MaybePackage.new (db.path ++ [.utf8 raw0]) name version)) }
                  rest := by
              simp [populate_package_cache, hsplit, hdup]
            constructor
            · intro db2 hok d hd hdir raw hraw
              rw [hstep] at hok
              rcases List.mem_cons.mp hd with hhead | htail
              · subst hhead
                have hr : raw0 = raw := by simpa using hraw
                subst hr
                simp [hsplit]
              · exact (ih _).1 db2 hok d htail hdir raw hraw
            · intro db2 e herr
              rw [hstep] at herr
              obtain ⟨⟨raw, he, d, hd, hprop⟩, tail, htail⟩ := (ih _).2 db2 e herr
              refine ⟨⟨raw, he, d, List.mem_cons_of_mem _ hd, hprop⟩,
                (⟨name, version⟩, MaybePackage.new (db.path ++ [.utf8 raw0]) name version) :: tail,
                ?_⟩
              rw [htail]
              simp [cacheInsert]

/-- The engine dbFresh after populating over the single directory
foo-1.0-1. -/
def dbAfterFoo : LocalDatabaseInner :=
  { dbFresh with package_cache :=
      [(⟨"foo", "1.0-1"⟩, .unloaded (dbFresh.path ++ [.utf8 "foo-1.0-1"]) "foo" "1.0-1")] }

/-- Witness for C3 at a concrete run: a successful population implies the
splitter accepted the directory name. -/
theorem populate_error_contract_amended_witness :
    (split_package_dirname "foo-1.0-1").isSome = true :=
  (populate_error_contract_amended split_package_dirname dbFresh
      [⟨.utf8 "foo-1.0-1", true⟩]).1 dbAfterFoo (by decide)
    ⟨.utf8 "foo-1.0-1", true⟩ (List.mem_cons_self _ _) rfl "foo-1.0-1" rfl

/-! ## Count claims -/

/-- Counterexample for C2: after populating a fresh engine with one
package directory, the cached package-count field still holds 0 while the
slot map has size 1 — the cached field does not equal the map's size
after every operation. -/
theorem package_count_stale_counterexample :
    (populate_package_cache split_package_dirname dbFresh [⟨.utf8 "foo-1.0-1", true⟩]).dbOf.map
        (fun db => (db.package_count, db.package_cache.length)) = some (0, 1) := by
  decide

/-- C2 (amended): count() returns the current slot-map size, but the
cached package-count field merely starts at 0 at construction and is
never updated — population and both lookups leave it unchanged — so it
does not track the map's size. -/
theorem count_contract_amended :
    (∀ (handle : Handle) (sig : SignatureLevel),
       (LocalDatabaseInner.new handle sig).package_count = 0)
    ∧ (∀ db : LocalDatabaseInner, LocalDatabase.count db = db.package_cache.length)
    ∧ (∀ (split : String → Option (String × String)) (db : LocalDatabaseInner)
         (entries : List DirEntry) (db2 : LocalDatabaseInner),
        (populate_package_cache split db entries).dbOf = some db2 →
        db2.package_count = db.package_count)
    ∧ (∀ (env : BuildEnv) (db : LocalDatabaseInner) (fresh : Nat) (name version : String)
         (pkg : LocalPackage) (db2 : LocalDatabaseInner) (fresh2 : Nat),
        LocalDatabaseInner.package env db fresh name version = .ok (pkg, db2, fresh2) →
        db2.package_count = db.package_count)
    ∧ (∀ (env : BuildEnv) (db : LocalDatabaseInner) (fresh : Nat) (name : String)
         (pkg : LocalPackage) (db2 : LocalDatabaseInner) (fresh2 : Nat),
        LocalDatabaseInner.package_latest env db fresh name = .ok (pkg, db2, fresh2) →
        db2.package_count = db.package_count) := by
  refine ⟨?_, ?_, ?_, ?_, ?_⟩
  · intro handle sig
    rfl
  · intro db
    rfl
  · intro split db entries
    induction entries generalizing db with
    | nil =>
      intro db2 h
      simp [populate_package_cache, PopResult.dbOf] at h
      rw [← h]
    | cons entry rest ih =>
      intro db2 h
      obtain ⟨fn, isd⟩ := entry
      cases isd with
      | false =>
        rw [show populate_package_cache split db (⟨fn, false⟩ :: rest) =
            populate_package_cache split db rest by simp [populate_package_cache]] at h
        exact ih db db2 h
      | true =>
        cases fn with
        | nonUtf8 id =>
          rw [show populate_package_cache split db (⟨.nonUtf8 id, true⟩ :: rest) =
              .fatal "non-utf8 package names not yet supported" by
            simp [populate_package_cache]] at h
          simp [PopResult.dbOf] at h
        | utf8 raw0 =>
          cases hsplit : split raw0 with
          | none =>
            rw [show populate_package_cache split db (⟨.utf8 raw0, true⟩ :: rest) =
                .err db (.invalidLocalPackage raw0) by
              simp [populate_package_cache, hsplit]] at h
            simp [PopResult.dbOf] at h
            rw [← h]
          | some nv =>
            obtain ⟨name, version⟩ := nv
            cases hdup : (cacheGet db.package_cache ⟨name, version⟩).isSome with
            | true =>
              rw [show populate_package_cache split db (⟨.utf8 raw0, true⟩ :: rest) =
                  .fatal "Found package in localdb with duplicate name/version" by
                simp [populate_package_cache, hsplit, hdup]] at h
              simp [PopResult.dbOf] at h
            | false =>
              rw [show populate_package_cache split db (⟨.utf8 raw0, true⟩ :: rest) =
                  populate_package_cache split
                    { db with package_cache :=
                        (cacheInsert db.package_cache ⟨name, version⟩
                          (MaybePackage.new (db.path ++ [.utf8 raw0]) name version)) }
                    rest by
                simp [populate_package_cache, hsplit, hdup]] at h
              have h2 := ih { db with package_cache :=
                  (cacheInsert db.package_cache ⟨name, version⟩
                    (MaybePackage.new (db.path ++ [.utf8 raw0]) name version)) } db2 h
              simpa using h2
  · intro env db fresh name version pkg db2 fresh2 h
    unfold LocalDatabaseInner.package at h
    split at h
    · simp at h
    · split at h
      · simp only [Outcome.ok.injEq, Prod.mk.injEq] at h
        rw [← h.2.1]
      · simp at h
      · simp at h
  · intro env db fresh name pkg db2 fresh2 h
    unfold LocalDatabaseInner.package_latest at h
    split at h
    · simp at h
    · split at h
      · simp only [Outcome.ok.injEq, Prod.mk.injEq] at h
        rw [← h.2.1]
      · simp at h
      · simp at h

/-- Witness for C2 at concrete runs: population and a lookup both leave
the cached package-count field unchanged. -/
theorem count_contract_amended_witness :
    dbAfterFoo.package_count = dbFresh.package_count
    ∧ dbOneSlotLoaded.package_count = dbOneSlot.package_count :=
  ⟨count_contract_amended.2.2.1 split_package_dirname dbFresh [⟨.utf8 "foo-1.0-1", true⟩]
      dbAfterFoo (by decide),
   count_contract_amended.2.2.2.1 envNoFail dbOneSlot 0 "foo" "1.0-1" pkgFoo
      dbOneSlotLoaded 1 (by decide)⟩

/-! ## Enumeration claims -/

/-- The trace of records a full enumeration passes to the visitor, slot by
slot in iteration order, threading the allocation counter. -/
def expectedVisits : PackageCache → Nat → List LocalPackage
  | [], _ => []
  | (_, mp) :: rest, fresh => slotRecord mp fresh :: expectedVisits rest (slotFreshAfter mp fresh)

/-- The slot map after the listed slots have all been loaded, threading
the allocation counter. -/
def loadedSlots : PackageCache → Nat → PackageCache
  | [], _ => []
  | (k, mp) :: rest, fresh =>
    (k, .loaded (slotRecord mp fresh)) :: loadedSlots rest (slotFreshAfter mp fresh)

/-- The allocation counter after the listed slots have all been loaded. -/
def freshAfterAll : PackageCache → Nat → Nat
  | [], fresh => fresh
  | (_, mp) :: rest, fresh => freshAfterAll rest (slotFreshAfter mp fresh)

theorem expectedVisits_length (slots : PackageCache) :
    ∀ fresh, (expectedVisits slots fresh).length = slots.length := by
  induction slots with
  | nil => intro fresh; rfl
  | cons kv rest ih =>
    intro fresh
    obtain ⟨k, mp⟩ := kv
    simp [expectedVisits, ih]

theorem packagesGo_all_ok {E : Type} (fromE : Error → E) {env : BuildEnv}
    (henv : env.buildErr = []) (hd : Handle) (f : LocalPackage → Except E Unit)
    (hf : ∀ p, f p = Except.ok ()) :
    ∀ (slots : PackageCache) (fresh : Nat),
      packagesGo fromE env (some hd) f slots fresh =
        .ok (loadedSlots slots fresh) (freshAfterAll slots fresh) (expectedVisits slots fresh) := by
  intro slots
  induction slots with
  | nil => intro fresh; rfl
  | cons kv rest ih =>
    intro fresh
    obtain ⟨k, mp⟩ := kv
    rw [show packagesGo fromE env (some hd) f ((k, mp) :: rest) fresh =
        (match MaybePackage.load env mp (some hd) fresh with
         | .fatal m => .fatal m
         | .err e => .err ((k, mp) :: rest) fresh [] (fromE e)
         | .ok (pkg, mp2, fresh2) =>
           match f pkg with
           | .error e2 => .err ((k, mp2) :: rest) fresh2 [pkg] e2
           | .ok _ =>
             match packagesGo fromE env (some hd) f rest fresh2 with
             | .ok slots2 fresh3 visited => .ok ((k, mp2) :: slots2) fresh3 (pkg :: visited)
             | .err slots2 fresh3 visited e3 => .err ((k, mp2) :: slots2) fresh3 (pkg :: visited) e3
             | .fatal m => .fatal m) from rfl]
    rw [load_success henv mp hd fresh]
    simp only [hf (slotRecord mp fresh)]
    rw [ih (slotFreshAfter mp fresh)]
    simp [loadedSlots, freshAfterAll, expectedVisits]

theorem packagesGo_first_fail {E : Type} (fromE : Error → E) {env : BuildEnv}
    (henv : env.buildErr = []) (hd : Handle) (f : LocalPackage → Except E Unit) :
    ∀ (slots : PackageCache) (fresh : Nat) (pre : List LocalPackage) (pbad : LocalPackage)
      (post : List LocalPackage) (e : E),
      expectedVisits slots fresh = pre ++ pbad :: post →
      (∀ p ∈ pre, f p = Except.ok ()) →
      f pbad = Except.error e →
      packagesGo fromE env (some hd) f slots fresh =
        .err (loadedSlots (slots.take (pre.length + 1)) fresh ++ slots.drop (pre.length + 1))
             (freshAfterAll (slots.take (pre.length + 1)) fresh)
             (pre ++ [pbad]) e := by
  intro slots
  induction slots with
  | nil =>
    intro fresh pre pbad post e hsplit
    rw [show expectedVisits [] fresh = [] from rfl] at hsplit
    cases pre <;> simp at hsplit
  | cons kv rest ih =>
    intro fresh pre pbad post e hsplit hok hbad
    obtain ⟨k, mp⟩ := kv
    rw [show expectedVisits ((k, mp) :: rest) fresh =
        slotRecord mp fresh :: expectedVisits rest (slotFreshAfter mp fresh) from rfl] at hsplit
    rw [show packagesGo fromE env (some hd) f ((k, mp) :: rest) fresh =
        (match MaybePackage.load env mp (some hd) fresh with
         | .fatal m => .fatal m
         | .err e0 => .err ((k, mp) :: rest) fresh [] (fromE e0)
         | .ok (pkg, mp2, fresh2) =>
           match f pkg with
           | .error e2 => .err ((k, mp2) :: rest) fresh2 [pkg] e2
           | .ok _ =>
             match packagesGo fromE env (some hd) f rest fresh2 with
             | .ok slots2 fresh3 visited => .ok ((k, mp2) :: slots2) fresh3 (pkg :: visited)
             | .err slots2 fresh3 visited e3 => .err ((k, mp2) :: slots2) fresh3 (pkg :: visited) e3
             | .fatal m => .fatal m) from rfl]
    rw [load_success henv mp hd fresh]
    cases pre with
    | nil =>
      simp only [List.nil_append, List.cons.injEq] at hsplit
      obtain ⟨hbadeq, hrest⟩ := hsplit
      rw [hbadeq]
      simp only [hbad]
      simp [loadedSlots, freshAfterAll, hbadeq]
    | cons p0 pre2 =>
      simp only [List.cons_append, List.cons.injEq] at hsplit
      obtain ⟨hp0, hrest⟩ := hsplit
      have hfp0 : f (slotRecord mp fresh) = Except.ok () := by
        rw [hp0]
        exact hok p0 (List.mem_cons_self _ _)
      simp only [hfp0]
      rw [ih (slotFreshAfter mp fresh) pre2 pbad post e hrest
        (fun p hp => hok p (List.mem_cons_of_mem _ hp)) hbad]
      simp [loadedSlots, freshAfterAll, hp0]

/-- C7: for_each invokes the visitor exactly once per slot when the
visitor never fails (the visit trace has one record per slot, in order,
every slot ends up loaded and the run succeeds); and when the visitor
first fails on the record after a prefix of accepted records — its k-th
invocation, k = pre.length + 1 — that failure is returned to the caller
unchanged, exactly those k slots have been loaded, exactly the k records
have been visited, and the remaining slots are neither loaded nor
visited.  Holds whenever the engine's handle is live and every record
builds. -/
theorem for_each_visits_contract :
    ∀ (E : Type) (fromE : Error → E) (env : BuildEnv) (hd : Handle)
      (db : LocalDatabaseInner) (f : LocalPackage → Except E Unit) (fresh : Nat),
      db.handle = some hd → env.buildErr = [] →
      ((∀ p, f p = Except.ok ()) →
        LocalDatabaseInner.packages fromE env db f fresh =
          .ok (loadedSlots db.package_cache fresh) (freshAfterAll db.package_cache fresh)
              (expectedVisits db.package_cache fresh)
        ∧ (expectedVisits db.package_cache fresh).length = db.package_cache.length)
      ∧ (∀ (pre : List LocalPackage) (pbad : LocalPackage) (post : List LocalPackage) (e : E),
          expectedVisits db.package_cache fresh = pre ++ pbad :: post →
          (∀ p ∈ pre, f p = Except.ok ()) →
          f pbad = Except.error e →
          LocalDatabaseInner.packages fromE env db f fresh =
            .err (loadedSlots (db.package_cache.take (pre.length + 1)) fresh
                    ++ db.package_cache.drop (pre.length + 1))
                 (freshAfterAll (db.package_cache.take (pre.length + 1)) fresh)
                 (pre ++ [pbad]) e) := by
  intro E fromE env hd db f fresh hhandle henv
  constructor
  · intro hf
    unfold LocalDatabaseInner.packages
    rw [hhandle]
    exact ⟨packagesGo_all_ok fromE henv hd f hf db.package_cache fresh,
      expectedVisits_length db.package_cache fresh⟩
  · intro pre pbad post e hsplit hok hbad
    unfold LocalDatabaseInner.packages
    rw [hhandle]
    exact packagesGo_first_fail fromE henv hd f db.package_cache fresh pre pbad post e
      hsplit hok hbad

/-- An engine with three unloaded slots a, b, c. -/
def dbThreeSlots : LocalDatabaseInner :=
  { handle := some handleA
    sig_level := ⟨0⟩
    usage := ⟨0⟩
    path := [.utf8 "var", .utf8 "local"]
    package_cache :=
      [(⟨"a", "1"⟩, .unloaded [.utf8 "a-1"] "a" "1"),
       (⟨"b", "2"⟩, .unloaded [.utf8 "b-2"] "b" "2"),
       (⟨"c", "3"⟩, .unloaded [.utf8 "c-3"] "c" "3")]
    package_count := 3 }

/-- The record slot a yields, allocation identity 0. -/
def pkgA : LocalPackage := ⟨[.utf8 "a-1"], "a", "1", 0⟩

/-- The record slot b yields, allocation identity 1. -/
def pkgB : LocalPackage := ⟨[.utf8 "b-2"], "b", "2", 1⟩

/-- The record slot c would yield, allocation identity 2. -/
def pkgC : LocalPackage := ⟨[.utf8 "c-3"], "c", "3", 2⟩

/-- A visitor that accepts every record. -/
def fVisitAll : LocalPackage → Except String Unit := fun _ => .ok ()

/-- A visitor that rejects the record named b. -/
def fStopAtB : LocalPackage → Except String Unit :=
  fun p => if p.name = "b" then .error "stop" else .ok ()

/-- Witness for C7 on a three-slot engine: the never-failing visitor
visits all three slots once each; the visitor failing on its second
invocation ends the run with that failure, two slots loaded and visited,
and the third slot untouched. -/
theorem for_each_visits_contract_witness :
    (LocalDatabaseInner.packages (fun _ => "io") envNoFail dbThreeSlots fVisitAll 0 =
      .ok [(⟨"a", "1"⟩, .loaded pkgA), (⟨"b", "2"⟩, .loaded pkgB), (⟨"c", "3"⟩, .loaded pkgC)]
          3 [pkgA, pkgB, pkgC]
      ∧ (expectedVisits dbThreeSlots.package_cache 0).length = dbThreeSlots.package_cache.length)
    ∧ LocalDatabaseInner.packages (fun _ => "io") envNoFail dbThreeSlots fStopAtB 0 =
      .err [(⟨"a", "1"⟩, .loaded pkgA), (⟨"b", "2"⟩, .loaded pkgB),
            (⟨"c", "3"⟩, .unloaded [.utf8 "c-3"] "c" "3")]
          2 [pkgA, pkgB] "stop" :=
  ⟨(for_each_visits_contract String (fun _ => "io") envNoFail handleA dbThreeSlots fVisitAll 0
      rfl rfl).1 (fun _ => rfl),
   (for_each_visits_contract String (fun _ => "io") envNoFail handleA dbThreeSlots fStopAtB 0
      rfl rfl).2 [pkgA] pkgB [pkgC] "stop" (by decide) (by decide) (by decide)⟩

/-! ## Latest-version lookup claims -/

theorem charsLtB_irrefl : ∀ l : List Char, charsLtB l l = false
  | [] => rfl
  | c :: cs => by simp [charsLtB, lt_irrefl, charsLtB_irrefl cs]

theorem charsLtB_trans (a : List Char) :
    ∀ b c, charsLtB a b = true → charsLtB b c = true → charsLtB a c = true := by
  induction a with
  | nil =>
    intro b c hab hbc
    cases b with
    | nil => simp [charsLtB] at hab
    | cons b0 bs =>
      cases c with
      | nil => simp [charsLtB] at hbc
      | cons c0 cs => simp [charsLtB]
  | cons a0 as ih =>
    intro b c hab hbc
    cases b with
    | nil => simp [charsLtB] at hab
    | cons b0 bs =>
      cases c with
      | nil => simp [charsLtB] at hbc
      | cons c0 cs =>
        by_cases h1 : a0 < b0
        · by_cases h2 : b0 < c0
          · have h3 : a0 < c0 := lt_trans h1 h2
            simp [charsLtB, h3]
          · by_cases h3 : c0 < b0
            · simp [charsLtB, h2, h3] at hbc
            · have hbceq : b0 = c0 := le_antisymm (not_lt.mp h3) (not_lt.mp h2)
              subst hbceq
              simp [charsLtB, h1]
        · by_cases h4 : b0 < a0
          · simp [charsLtB, h1, h4] at hab
          · have haeq : a0 = b0 := le_antisymm (not_lt.mp h4) (not_lt.mp h1)
            subst haeq
            simp only [charsLtB, lt_irrefl, if_false] at hab
            by_cases h2 : a0 < c0
            · simp [charsLtB, h2]
            · by_cases h3 : c0 < a0
              · simp [charsLtB, h2, h3] at hbc
              · have hceq : a0 = c0 := le_antisymm (not_lt.mp h3) (not_lt.mp h2)
                subst hceq
                simp only [charsLtB, lt_irrefl, if_false] at hbc ⊢
                exact ih bs cs hab hbc

theorem charsLtB_conn (a : List Char) :
    ∀ b, charsLtB a b = false → a = b ∨ charsLtB b a = true := by
  induction a with
  | nil =>
    intro b h
    cases b with
    | nil => exact Or.inl rfl
    | cons b0 bs => simp [charsLtB] at h
  | cons a0 as ih =>
    intro b h
    cases b with
    | nil => exact Or.inr (by simp [charsLtB])
    | cons b0 bs =>
      by_cases h1 : a0 < b0
      · simp [charsLtB, h1] at h
      · by_cases h2 : b0 < a0
        · exact Or.inr (by simp [charsLtB, h2])
        · have heq : a0 = b0 := le_antisymm (not_lt.mp h2) (not_lt.mp h1)
          subst heq
          simp only [charsLtB, lt_irrefl, if_false] at h
          rcases ih bs h with h3 | h3
          · exact Or.inl (by rw [h3])
          · exact Or.inr (by simp [charsLtB, lt_irrefl, h3])

theorem stringDataInj {a b : String} (h : a.data = b.data) : a = b := by
  cases a
  cases b
  exact congrArg String.mk h

theorem versionLtB_irrefl (a : String) : versionLtB a a = false :=
  charsLtB_irrefl a.data

theorem versionLtB_trans {a b c : String} (h1 : versionLtB a b = true)
    (h2 : versionLtB b c = true) : versionLtB a c = true :=
  charsLtB_trans a.data b.data c.data h1 h2

theorem versionLtB_conn {a b : String} (h : versionLtB a b = false) :
    a = b ∨ versionLtB b a = true := by
  rcases charsLtB_conn a.data b.data h with h2 | h2
  · exact Or.inl (stringDataInj h2)
  · exact Or.inr h2

theorem maxFold_mem : ∀ (xs : List (PackageKey × MaybePackage)) (cur : PackageKey × MaybePackage),
    maxFold cur xs ∈ cur :: xs := by
  intro xs
  induction xs with
  | nil =>
    intro cur
    simp [maxFold]
  | cons y ys ih =>
    intro cur
    cases hv : versionLtB y.1.version cur.1.version with
    | true =>
      rw [show maxFold cur (y :: ys) = maxFold cur ys by simp [maxFold, hv]]
      rcases List.mem_cons.mp (ih cur) with heq | hmem
      · exact List.mem_cons.mpr (Or.inl heq)
      · exact List.mem_cons.mpr (Or.inr (List.mem_cons.mpr (Or.inr hmem)))
    | false =>
      rw [show maxFold cur (y :: ys) = maxFold y ys by simp [maxFold, hv]]
      rcases List.mem_cons.mp (ih y) with heq | hmem
      · exact List.mem_cons.mpr (Or.inr (List.mem_cons.mpr (Or.inl heq)))
      · exact List.mem_cons.mpr (Or.inr (List.mem_cons.mpr (Or.inr hmem)))

theorem maxFold_not_lt : ∀ (xs : List (PackageKey × MaybePackage))
    (cur y : PackageKey × MaybePackage), y ∈ cur :: xs →
    versionLtB (maxFold cur xs).1.version y.1.version = false := by
  intro xs
  induction xs with
  | nil =>
    intro cur y hy
    rcases List.mem_cons.mp hy with heq | h2
    · subst heq
      simp [maxFold, versionLtB_irrefl]
    · simp at h2
  | cons z zs ih =>
    intro cur y hy
    cases hv : versionLtB z.1.version cur.1.version with
    | true =>
      rw [show maxFold cur (z :: zs) = maxFold cur zs by simp [maxFold, hv]]
      rcases List.mem_cons.mp hy with heq | hin
      · subst heq
        exact ih y y (List.mem_cons_self _ _)
      · rcases List.mem_cons.mp hin with heqz | hzs
        · subst heqz
          have hrescur := ih cur cur (List.mem_cons_self _ _)
          cases hresy : versionLtB (maxFold cur zs).1.version y.1.version with
          | false => rfl
          | true => exact absurd (versionLtB_trans hresy hv) (by simp [hrescur])
        · exact ih cur y (List.mem_cons_of_mem _ hzs)
    | false =>
      rw [show maxFold cur (z :: zs) = maxFold z zs by simp [maxFold, hv]]
      rcases List.mem_cons.mp hy with heq | hin
      · subst heq
        have hresz := ih z z (List.mem_cons_self _ _)
        rcases versionLtB_conn hv with heq2 | hcltz
        · rw [← heq2]
          exact hresz
        · cases hrescur : versionLtB (maxFold z zs).1.version y.1.version with
          | false => rfl
          | true => exact absurd (versionLtB_trans hrescur hcltz) (by simp [hresz])
      · rcases List.mem_cons.mp hin with heqz | hzs
        · subst heqz
          exact ih y y (List.mem_cons_self _ _)
        · exact ih z y (List.mem_cons_of_mem _ hzs)

theorem maxByVersion_mem {l : List (PackageKey × MaybePackage)} {x : PackageKey × MaybePackage}
    (h : maxByVersion l = some x) : x ∈ l := by
  cases l with
  | nil => simp [maxByVersion] at h
  | cons y ys =>
    simp only [maxByVersion, Option.some.injEq] at h
    rw [← h]
    exact maxFold_mem ys y

theorem maxByVersion_max {l : List (PackageKey × MaybePackage)} {x : PackageKey × MaybePackage}
    (h : maxByVersion l = some x) :
    ∀ y ∈ l, versionLtB x.1.version y.1.version = false := by
  cases l with
  | nil => simp [maxByVersion] at h
  | cons z zs =>
    simp only [maxByVersion, Option.some.injEq] at h
    intro y hy
    rw [← h]
    exact maxFold_not_lt zs z y hy

/-- C8: lookup_latest.  When no cache entry's key has the given name the
call fails with InvalidLocalPackage carrying the name; any successful
result is the loaded record of an entry whose key has the given name and
whose version is greatest (not below any same-named entry's version)
under the version-string ordering; and a success exists whenever some
entry matches the name, the handle is live and the record builds. -/
theorem package_latest_contract :
    ∀ (env : BuildEnv) (db : LocalDatabaseInner) (fresh : Nat) (name : String),
      (db.package_cache.filter (fun kv => kv.1.name = name) = [] →
        LocalDatabaseInner.package_latest env db fresh name = .err (.invalidLocalPackage name))
      ∧ (∀ (pkg : LocalPackage) (db2 : LocalDatabaseInner) (fresh2 : Nat),
          LocalDatabaseInner.package_latest env db fresh name = .ok (pkg, db2, fresh2) →
          ∃ (k : PackageKey) (mp : MaybePackage),
            (k, mp) ∈ db.package_cache ∧ k.name = name
            ∧ (∀ kv ∈ db.package_cache, kv.1.name = name →
                versionLtB k.version kv.1.version = false)
            ∧ pkg = slotRecord mp fresh)
      ∧ (∀ (hd : Handle) (k0 : PackageKey) (mp0 : MaybePackage),
          env.buildErr = [] → db.handle = some hd →
          (k0, mp0) ∈ db.package_cache → k0.name = name →
          ∃ (pkg : LocalPackage) (db2 : LocalDatabaseInner) (fresh2 : Nat),
            LocalDatabaseInner.package_latest env db fresh name = .ok (pkg, db2, fresh2)) := by
  intro env db fresh name
  refine ⟨?_, ?_, ?_⟩
  · intro hfilter
    simp [LocalDatabaseInner.package_latest, hfilter, maxByVersion]
  · intro pkg db2 fresh2 h
    unfold LocalDatabaseInner.package_latest at h
    split at h
    · simp at h
    · rename_i k mp heq
      split at h
      · rename_i pkg3 mp3 fresh3 hload
        simp only [Outcome.ok.injEq, Prod.mk.injEq] at h
        obtain ⟨hp, _, _⟩ := h
        obtain ⟨hmemf, hpred⟩ := List.mem_filter.mp (maxByVersion_mem heq)
        refine ⟨k, mp, hmemf, of_decide_eq_true hpred, ?_, ?_⟩
        · intro kv hkv hkvname
          exact maxByVersion_max heq kv (List.mem_filter.mpr ⟨hkv, by simp [hkvname]⟩)
        · rw [← hp, (load_ok_shape hload).1]
      · simp at h
      · simp at h
  · intro hd k0 mp0 henv hhandle hmem hname
    have hmemf : (k0, mp0) ∈ db.package_cache.filter (fun kv => kv.1.name = name) :=
      List.mem_filter.mpr ⟨hmem, by simp [hname]⟩
    cases hl : db.package_cache.filter (fun kv => kv.1.name = name) with
    | nil =>
      rw [hl] at hmemf
      simp at hmemf
    | cons x xs =>
      rcases hmax : maxFold x xs with ⟨k, mp⟩
      refine ⟨slotRecord mp fresh,
        { db with package_cache := cacheSet db.package_cache k (.loaded (slotRecord mp fresh)) },
        slotFreshAfter mp fresh, ?_⟩
      unfold LocalDatabaseInner.package_latest
      rw [hl]
      simp only [maxByVersion]
      rw [hmax]
      rw [hhandle]
      simp only [load_success henv mp hd fresh]

/-- Witness for C8 on a concrete engine: a name with no entry fails with
the not-found error carrying that name, and the stored name succeeds. -/
theorem package_latest_contract_witness :
    LocalDatabaseInner.package_latest envNoFail dbOneSlot 0 "baz" =
      .err (.invalidLocalPackage "baz")
    ∧ ∃ (pkg : LocalPackage) (db2 : LocalDatabaseInner) (fresh2 : Nat),
        LocalDatabaseInner.package_latest envNoFail dbOneSlot 0 "foo" = .ok (pkg, db2, fresh2) :=
  ⟨(package_latest_contract envNoFail dbOneSlot 0 "baz").1 (by decide),
   (package_latest_contract envNoFail dbOneSlot 0 "foo").2.2 handleA ⟨"foo", "1.0-1"⟩
     (.unloaded [.utf8 "var", .utf8 "local", .utf8 "foo-1.0-1"] "foo" "1.0-1")
     rfl rfl (by decide) rfl⟩
